import Mathlib

/-!
Verification of the `unpeel` PNG inspector (`src/main.rs`).

The program's core, embedded here:
* the chunk walker of `main` (lines 129-255): a loop of four sequential
  reads (length, type tag, data, crc) over the byte stream that follows
  the 8-byte signature, dispatching each chunk by its type tag;
* the decoded-text printing loop of `main` (lines 86-88);
* `create_output_path` (lines 279-303);
* `write_png_image` (lines 305-332) and the decode-to-encode buffer flow
  of `main` (lines 71-83 and 263-276).

Bytes are modelled as `Nat` (each < 256 in real streams; nothing below
depends on that bound), byte streams as `List Nat`. Console output is
modelled as the list of structured records the loop prints; a Rust
`panic!` (from `.unwrap()` on an `Err`) is modelled as `Except.error`.
`String::from_utf8_lossy` is a presentation-layer rendering; the emitted
keyword/text fields are kept as the raw byte segments the code slices.
-/

namespace Unpeel

/-- `file.read_exact(&mut buf)` for a buffer of `n` bytes over a stream
modelled as the list of bytes remaining: succeeds iff `n` bytes remain,
returning the bytes read and the rest of the stream. -/
def readExact (n : Nat) (s : List Nat) : Option (List Nat × List Nat) :=
  if n ≤ s.length then some (s.take n, s.drop n) else none

/-- `u32::from_be_bytes([b0,b1,b2,b3])`. -/
def be32 (b0 b1 b2 b3 : Nat) : Nat :=
  ((b0 * 256 + b1) * 256 + b2) * 256 + b3

/-- `u16::from_be_bytes([b0,b1])`. -/
def be16 (b0 b1 : Nat) : Nat := b0 * 256 + b1

/-- ASCII bytes of the 4-byte chunk type tags matched in `main`. -/
def tEXtTag : List Nat := [116, 69, 88, 116]

def zTXtTag : List Nat := [122, 84, 88, 116]

def iTXtTag : List Nat := [105, 84, 88, 116]

def pHYsTag : List Nat := [112, 72, 89, 115]

def tIMETag : List Nat := [116, 73, 77, 69]

def gAMATag : List Nat := [103, 65, 77, 65]

def cHRMTag : List Nat := [99, 72, 82, 77]

def sRGBTag : List Nat := [115, 82, 71, 66]

def iCCPTag : List Nat := [105, 67, 67, 80]

def IENDTag : List Nat := [73, 69, 78, 68]

/-- `data.iter().position(|&b| b == 0)`: index of the first `0x00` byte. -/
def firstZero : List Nat → Option Nat
  | [] => none
  | b :: bs => if b = 0 then some 0 else (firstZero bs).map (· + 1)

/-- One console record per chunk detail line group printed by the dispatch
`match` in `main` (lines 158-250). Keyword/name/text fields hold the raw
byte segments sliced from `data` (rendered lossily for display). -/
inductive ChunkRecord where
  | text (keyword txt : List Nat)
  | ztxt (keyword : List Nat) (method : Nat)
  | itxt (keyword : List Nat)
  | phys (x y : Nat) (unit : String)
  | time (year month day hour minute second : Nat)
  | gama (raw : Nat)
  | chrm
  | srgb (intent : String)
  | iccp (profileName : List Nat) (method : Nat) (size : Nat)
  | other (tag : List Nat) (len : Nat)
  deriving DecidableEq, Repr

/-- The `match data[0]` table of the sRGB arm. -/
def srgbIntent (b : Nat) : String :=
  if b = 0 then "Perceptual"
  else if b = 1 then "Relative colorimetric"
  else if b = 2 then "Saturation"
  else if b = 3 then "Absolute colorimetric"
  else "Unknown"

/-- The dispatch `match chunk_type` of `main` (lines 158-250), minus the
`IEND` arm (which `break`s before printing and is handled by `walk`):
given the 4-byte tag and the chunk data, the detail record printed, or
`none` when the arm's guard fails and nothing is printed. -/
def dispatch (tag data : List Nat) : Option ChunkRecord :=
  if tag = tEXtTag then
    match firstZero data with
    | some i => some (.text (data.take i) (data.drop (i + 1)))
    | none => none
  else if tag = zTXtTag then
    match firstZero data with
    | some i =>
        if i + 1 < data.length then
          some (.ztxt (data.take i) (data.getD (i + 1) 0))
        else none
    | none => none
  else if tag = iTXtTag then
    match firstZero data with
    | some i => some (.itxt (data.take i))
    | none => none
  else if tag = pHYsTag then
    if 9 ≤ data.length then
      some (.phys
        (be32 (data.getD 0 0) (data.getD 1 0) (data.getD 2 0) (data.getD 3 0))
        (be32 (data.getD 4 0) (data.getD 5 0) (data.getD 6 0) (data.getD 7 0))
        (if data.getD 8 0 = 1 then "meter" else "unknown"))
    else none
  else if tag = tIMETag then
    if 7 ≤ data.length then
      some (.time (be16 (data.getD 0 0) (data.getD 1 0))
        (data.getD 2 0) (data.getD 3 0) (data.getD 4 0) (data.getD 5 0)
        (data.getD 6 0))
    else none
  else if tag = gAMATag then
    if 4 ≤ data.length then
      some (.gama
        (be32 (data.getD 0 0) (data.getD 1 0) (data.getD 2 0) (data.getD 3 0)))
    else none
  else if tag = cHRMTag then
    if 32 ≤ data.length then some .chrm else none
  else if tag = sRGBTag then
    if data.length ≠ 0 then some (.srgb (srgbIntent (data.getD 0 0)))
    else none
  else if tag = iCCPTag then
    match firstZero data with
    | some i =>
        if i + 1 < data.length then
          some (.iccp (data.take i) (data.getD (i + 1) 0)
            (data.length - i - 2))
        else none
    | none => none
  else
    some (.other tag data.length)

/-- One full chunk as read by the loop body: `length` (decoded from 4
big-endian bytes), 4-byte type tag, `length` data bytes, 4 crc bytes
(consumed, never validated). -/
structure ChunkRaw where
  length : Nat
  tag : List Nat
  data : List Nat
  crc : List Nat
  deriving DecidableEq, Repr

/-- The four sequential reads at the top of each loop iteration
(lines 133-153): `none` exactly when one of them hits a short read, in
which case the loop `break`s. -/
def readChunk (s : List Nat) : Option (ChunkRaw × List Nat) :=
  match readExact 4 s with
  | none => none
  | some (lb, s1) =>
    let len := be32 (lb.getD 0 0) (lb.getD 1 0) (lb.getD 2 0) (lb.getD 3 0)
    match readExact 4 s1 with
    | none => none
    | some (tb, s2) =>
      match readExact len s2 with
      | none => none
      | some (db, s3) =>
        match readExact 4 s3 with
        | none => none
        | some (cb, s4) => some (⟨len, tb, db, cb⟩, s4)

/-- How the chunk loop stopped: the `break` in the `IEND` arm, or the
`break` taken when one of the four reads was short. -/
inductive StopReason where
  | iend
  | shortRead
  deriving DecidableEq, Repr

theorem readExact_some {n : Nat} {s a r : List Nat}
    (h : readExact n s = some (a, r)) :
    n ≤ s.length ∧ a = s.take n ∧ r = s.drop n := by
  unfold readExact at h
  by_cases hle : n ≤ s.length
  · simp [hle] at h
    exact ⟨hle, h.1.symm, h.2.symm⟩
  · simp [hle] at h

theorem readChunk_rest_length {s : List Nat} {c : ChunkRaw} {r : List Nat}
    (h : readChunk s = some (c, r)) :
    r.length + 12 + c.length = s.length := by
  unfold readChunk at h
  cases h1 : readExact 4 s with
  | none => rw [h1] at h; exact absurd h (by simp)
  | some v1 =>
    obtain ⟨lb, s1⟩ := v1
    rw [h1] at h
    simp only at h
    cases h2 : readExact 4 s1 with
    | none => rw [h2] at h; exact absurd h (by simp)
    | some v2 =>
      obtain ⟨tb, s2⟩ := v2
      rw [h2] at h
      simp only at h
      cases h3 : readExact
          (be32 (lb.getD 0 0) (lb.getD 1 0) (lb.getD 2 0) (lb.getD 3 0)) s2 with
      | none => rw [h3] at h; exact absurd h (by simp)
      | some v3 =>
        obtain ⟨db, s3⟩ := v3
        rw [h3] at h
        simp only at h
        cases h4 : readExact 4 s3 with
        | none => rw [h4] at h; exact absurd h (by simp)
        | some v4 =>
          obtain ⟨cb, s4⟩ := v4
          rw [h4] at h
          simp only [Option.some.injEq, Prod.mk.injEq] at h
          obtain ⟨hc, hr⟩ := h
          obtain ⟨hn1, -, hs1⟩ := readExact_some h1
          obtain ⟨hn2, -, hs2⟩ := readExact_some h2
          obtain ⟨hn3, -, hs3⟩ := readExact_some h3
          obtain ⟨hn4, -, hs4⟩ := readExact_some h4
          subst hs1 hs2 hs3 hs4
          subst hr
          have hlen : c.length =
              be32 (lb.getD 0 0) (lb.getD 1 0) (lb.getD 2 0) (lb.getD 3 0) := by
            rw [← hc]
          simp only [List.length_drop] at *
          omega

theorem readChunk_rest_lt {s : List Nat} {c : ChunkRaw} {r : List Nat}
    (h : readChunk s = some (c, r)) : r.length < s.length := by
  have := readChunk_rest_length h
  omega

/-- The chunk loop of `main` (lines 132-251): the ordered list of detail
records printed, paired with how the loop stopped. Each iteration does
the four reads (`break` on short read), `break`s on the `IEND` tag, and
otherwise prints the dispatched detail (if any) and continues. -/
def walk (s : List Nat) : List ChunkRecord × StopReason :=
  match h : readChunk s with
  | none => ([], .shortRead)
  | some (c, rest) =>
    if c.tag = IENDTag then ([], .iend)
    else
      let w := walk rest
      ((dispatch c.tag c.data).toList ++ w.1, w.2)
termination_by s.length
decreasing_by exact readChunk_rest_lt h

/-- Number of loop iterations that complete all four reads (each consumes
`12 + length` bytes of the stream). -/
def chunkCount (s : List Nat) : Nat :=
  match h : readChunk s with
  | none => 0
  | some (c, rest) =>
    if c.tag = IENDTag then 1 else 1 + chunkCount rest
termination_by s.length
decreasing_by exact readChunk_rest_lt h

/-! ### Output path (`create_output_path`, lines 279-303)

`PathBuf::set_file_name` replaces only the final path component, so the
function is modelled on that component (the parent directory is carried
over verbatim). File names are lists of characters. `Path::file_stem` /
`Path::extension` follow Rust's rules: the extension is the portion after
the final `.`, except that a name with no `.`, or whose only `.` is the
leading character, has none; `file_stem()` (via `file_name()`) returns
`None` for the components `""`, `.` and `..`, sending `create_output_path`
to its fallback branch that appends `-unpeeled` to the whole path. -/

/-- Index of the last `.` in a file name, if any. -/
def lastDotIdx : List Char → Option Nat
  | [] => none
  | c :: cs =>
    match lastDotIdx cs with
    | some j => some (j + 1)
    | none => if c = '.' then some 0 else none

/-- `Path::extension()` on a normal file-name component. -/
def rustExtension (n : List Char) : Option (List Char) :=
  match lastDotIdx n with
  | some i => if 0 < i then some (n.drop (i + 1)) else none
  | none => none

/-- `Path::file_stem()` on a normal file-name component. -/
def rustFileStem (n : List Char) : List Char :=
  match lastDotIdx n with
  | some i => if 0 < i then n.take i else n
  | none => n

def unpeeledSuffix : List Char := "-unpeeled".data

/-- `create_output_path` (lines 279-303), restricted to the final path
component: `""`, `"."` and `".."` have no `file_stem()` and take the
fallback branch; otherwise the new name is `stem ++ "-unpeeled" ++ "." ++
extension` when an extension exists and `stem ++ "-unpeeled"` when not. -/
def create_output_path (n : List Char) : List Char :=
  if n = [] ∨ n = ['.'] ∨ n = ['.', '.'] then n ++ unpeeledSuffix
  else
    match rustExtension n with
    | some e => rustFileStem n ++ unpeeledSuffix ++ ('.' :: e)
    | none => rustFileStem n ++ unpeeledSuffix

/-- Modelled from the spec: the claim's output-naming rule, stated
directly — `-unpeeled` is inserted immediately before the extension,
i.e. before the final dot; a name with no extension (no dot, a leading
dot only, or the special components `""`/`.`/`..`) gets `-unpeeled`
appended. Compared against `create_output_path`. -/
def claimOutputName (n : List Char) : List Char :=
  if n = ['.', '.'] then n ++ unpeeledSuffix
  else
    match lastDotIdx n with
    | some i =>
        if 0 < i then n.take i ++ unpeeledSuffix ++ n.drop i
        else n ++ unpeeledSuffix
    | none => n ++ unpeeledSuffix

/-! ### Encoding (`write_png_image`, lines 305-332) and the buffer flow
of `main` (lines 71-83, 263-276) -/

/-- `png::ColorType`. -/
inductive ColorType where
  | grayscale
  | rgb
  | indexed
  | grayscaleAlpha
  | rgba
  deriving DecidableEq, Repr

/-- What `write_png_image` hands to the `png` encoder before
`write_header` / `write_image_data`: dimensions, color type, bit depth,
the transparency payload (if set) and the image bytes. -/
structure EncoderOutput where
  width : Nat
  height : Nat
  color : ColorType
  depth : Nat
  trns : Option (List Nat)
  imageData : List Nat
  deriving DecidableEq, Repr

/-- `write_png_image` (lines 305-332): sets color and depth, sets the
transparency payload via `if let Some(trns_data) = trns` — with no test
of the color type — and writes `image_data`. -/
def write_png_image (width height : Nat) (color_type : ColorType)
    (bit_depth : Nat) (trns : Option (List Nat)) (image_data : List Nat) :
    EncoderOutput :=
  { width := width
    height := height
    color := color_type
    depth := bit_depth
    trns :=
      match trns with
      | some trns_data => some trns_data
      | none => none
    imageData := image_data }

/-- The decode-to-encode flow of `main`: `next_frame` fills `buf`
(line 77) and `buf` is passed to `write_png_image` (line 268) with no
intervening statement touching it. -/
def mainEncode (width height : Nat) (color_type : ColorType)
    (bit_depth : Nat) (trns : Option (List Nat)) (buf : List Nat) :
    EncoderOutput :=
  write_png_image width height color_type bit_depth trns buf

/-! ### Claim-side model of the Pixel Noise Transform (spec §4.2)

The source contains no noise transform; these definitions follow the
spec's words only, to state the claim that is then compared with the
code's actual buffer flow. -/

/-- Modelled from the spec: bytes per pixel at 8-bit depth (§4.2 table). -/
def bytesPerPixel : ColorType → Nat
  | .grayscale => 1
  | .grayscaleAlpha => 2
  | .rgb => 3
  | .rgba => 4
  | .indexed => 1

/-- Modelled from the spec: the channel indices eligible for noise
(§4.2 table). -/
def eligibleChannels : ColorType → List Nat
  | .grayscale => [0]
  | .grayscaleAlpha => [0]
  | .rgb => [0, 1, 2]
  | .rgba => [0, 1, 2]
  | .indexed => [0]

/-- Modelled from the spec: the alpha byte indices within a pixel
(§4.2 table: Rgba index 3, GrayscaleAlpha index 1). -/
def alphaIndices : ColorType → List Nat
  | .rgba => [3]
  | .grayscaleAlpha => [1]
  | _ => []

/-- `clamp(v, 0, 255)` over mathematical integers. -/
def clamp255 (v : Int) : Int := max 0 (min 255 v)

/-- Modelled from the spec: pixel `p` of `result` is `orig` with exactly
one eligible channel replaced by `clamp(v + o, 0, 255)` for some
`o ∈ {+15, −15}`, the other eligible channels unchanged and every alpha
byte unchanged. -/
def pixelNoised (ct : ColorType) (orig result : List Nat) (p : Nat) : Prop :=
  (∃ c ∈ eligibleChannels ct, ∃ plus : Bool,
      result.getD (bytesPerPixel ct * p + c) 0 =
        Int.toNat (clamp255 ((orig.getD (bytesPerPixel ct * p + c) 0 : Int) +
          (if plus then 15 else -15))) ∧
      ∀ c' ∈ eligibleChannels ct, c' ≠ c →
        result.getD (bytesPerPixel ct * p + c') 0 =
          orig.getD (bytesPerPixel ct * p + c') 0) ∧
  ∀ a ∈ alphaIndices ct,
    result.getD (bytesPerPixel ct * p + a) 0 =
      orig.getD (bytesPerPixel ct * p + a) 0

instance (ct : ColorType) (orig result : List Nat) (p : Nat) :
    Decidable (pixelNoised ct orig result p) := by
  unfold pixelNoised; infer_instance

/-! ### Decoded-text printing (`main`, lines 86-88)

`for text in utf8_text { println!("Text: {}", text.get_text().unwrap()); }`
— each entry of `info.utf8_text` yields a `Result` from `get_text()`,
and `.unwrap()` panics the process on an `Err`. The loop is modelled as
a function from the list of `get_text()` outcomes to either the printed
lines or the propagated panic. -/

inductive TextDecodeError where
  | decodeFailed
  deriving DecidableEq, Repr

/-- The text-printing loop: prints each decoded text in order; an `Err`
entry hits `.unwrap()` and the process panics (`Except.error`). -/
def printTexts : List (Except TextDecodeError String) →
    Except TextDecodeError (List String)
  | [] => .ok []
  | t :: ts =>
    match t with
    | .error e => .error e
    | .ok s =>
      match printTexts ts with
      | .error e => .error e
      | .ok rest => .ok (s :: rest)

/-! ### Step equations for the chunk loop -/

theorem walk_shortRead {s : List Nat} (h : readChunk s = none) :
    walk s = ([], .shortRead) := by
  rw [walk.eq_def, h]

theorem walk_iend {s : List Nat} {c : ChunkRaw} {rest : List Nat}
    (h : readChunk s = some (c, rest)) (ht : c.tag = IENDTag) :
    walk s = ([], .iend) := by
  rw [walk.eq_def, h]
  simp [ht]

theorem walk_cont {s : List Nat} {c : ChunkRaw} {rest : List Nat}
    (h : readChunk s = some (c, rest)) (ht : c.tag ≠ IENDTag) :
    walk s = ((dispatch c.tag c.data).toList ++ (walk rest).1, (walk rest).2) := by
  rw [walk.eq_def, h]
  simp [ht]

theorem chunkCount_shortRead {s : List Nat} (h : readChunk s = none) :
    chunkCount s = 0 := by
  rw [chunkCount.eq_def, h]

theorem chunkCount_iend {s : List Nat} {c : ChunkRaw} {rest : List Nat}
    (h : readChunk s = some (c, rest)) (ht : c.tag = IENDTag) :
    chunkCount s = 1 := by
  rw [chunkCount.eq_def, h]
  simp [ht]

theorem chunkCount_cont {s : List Nat} {c : ChunkRaw} {rest : List Nat}
    (h : readChunk s = some (c, rest)) (ht : c.tag ≠ IENDTag) :
    chunkCount s = 1 + chunkCount rest := by
  rw [chunkCount.eq_def, h]
  simp [ht]

/-- The declared data length of the chunk at the head of the stream:
the first four bytes, big-endian. -/
def chunkLen (s : List Nat) : Nat :=
  be32 (s.getD 0 0) (s.getD 1 0) (s.getD 2 0) (s.getD 3 0)

theorem take_getD_lt {s : List Nat} {n i : Nat} (h : i < n) (d : Nat) :
    (s.take n).getD i d = s.getD i d := by
  simp [List.getD_eq_getElem?_getD, List.getElem?_take_of_lt h]

theorem readChunk_eq_none_iff (s : List Nat) :
    readChunk s = none ↔ s.length < 8 ∨ s.length < 12 + chunkLen s := by
  unfold readChunk
  by_cases h4 : 4 ≤ s.length
  · have e1 : readExact 4 s = some (s.take 4, s.drop 4) := by
      simp [readExact, h4]
    rw [e1]
    dsimp only
    have hlen : be32 ((s.take 4).getD 0 0) ((s.take 4).getD 1 0)
        ((s.take 4).getD 2 0) ((s.take 4).getD 3 0) = chunkLen s := by
      unfold chunkLen
      rw [take_getD_lt (by omega), take_getD_lt (by omega),
        take_getD_lt (by omega), take_getD_lt (by omega)]
    rw [hlen]
    by_cases h8 : 8 ≤ s.length
    · have e2 : readExact 4 (s.drop 4) = some ((s.drop 4).take 4, s.drop 8) := by
        simp [readExact]
        omega
      rw [e2]
      dsimp only
      by_cases hd : chunkLen s ≤ s.length - 8
      · have e3 : readExact (chunkLen s) (s.drop 8) =
            some ((s.drop 8).take (chunkLen s), s.drop (8 + chunkLen s)) := by
          simp [readExact]
          omega
        rw [e3]
        dsimp only
        by_cases hc : 12 + chunkLen s ≤ s.length
        · have e4 : readExact 4 (s.drop (8 + chunkLen s)) =
              some ((s.drop (8 + chunkLen s)).take 4,
                s.drop (8 + chunkLen s + 4)) := by
            simp [readExact]
            omega
          rw [e4]
          dsimp only
          simp
          omega
        · have e4 : readExact 4 (s.drop (8 + chunkLen s)) = none := by
            simp [readExact]
            omega
          rw [e4]
          simp
          omega
      · have e3 : readExact (chunkLen s) (s.drop 8) = none := by
          simp [readExact]
          omega
        rw [e3]
        simp
        omega
    · have e2 : readExact 4 (s.drop 4) = none := by
        simp [readExact]
        omega
      rw [e2]
      simp
      omega
  · have e1 : readExact 4 s = none := by
      simp [readExact]
      omega
    rw [e1]
    simp
    omega

theorem chunkCount_le :
    ∀ (n : Nat) (s : List Nat), s.length ≤ n → 12 * chunkCount s ≤ s.length := by
  intro n
  induction n with
  | zero =>
    intro s hs
    cases h : readChunk s with
    | none => rw [chunkCount_shortRead h]; omega
    | some v =>
      obtain ⟨c, rest⟩ := v
      have := readChunk_rest_length h
      omega
  | succ n ih =>
    intro s hs
    cases h : readChunk s with
    | none => rw [chunkCount_shortRead h]; omega
    | some v =>
      obtain ⟨c, rest⟩ := v
      have hl := readChunk_rest_length h
      by_cases ht : c.tag = IENDTag
      · rw [chunkCount_iend h ht]; omega
      · rw [chunkCount_cont h ht]
        have := ih rest (by omega)
        omega

/-! ### Facts about `lastDotIdx` and `firstZero` -/

theorem lastDotIdx_drop {n : List Char} {i : Nat} (h : lastDotIdx n = some i) :
    n.drop i = '.' :: n.drop (i + 1) := by
  induction n generalizing i with
  | nil => simp [lastDotIdx] at h
  | cons c cs ih =>
    unfold lastDotIdx at h
    cases hcs : lastDotIdx cs with
    | some j =>
      rw [hcs] at h
      simp only [Option.some.injEq] at h
      subst h
      simpa using ih hcs
    | none =>
      rw [hcs] at h
      by_cases hc : c = '.'
      · rw [if_pos hc] at h
        simp only [Option.some.injEq] at h
        subst h
        simp [hc]
      · simp [hc] at h

theorem firstZero_spec {d : List Nat} {i : Nat} (h : firstZero d = some i) :
    d[i]? = some 0 ∧ ∀ j, j < i → d[j]? ≠ some 0 := by
  induction d generalizing i with
  | nil => simp [firstZero] at h
  | cons b bs ih =>
    unfold firstZero at h
    by_cases hb : b = 0
    · rw [if_pos hb] at h
      simp only [Option.some.injEq] at h
      subst h
      simp [hb]
    · rw [if_neg hb] at h
      cases hbs : firstZero bs with
      | none => rw [hbs] at h; simp at h
      | some j =>
        rw [hbs] at h
        simp only [Option.map_some', Option.some.injEq] at h
        subst h
        obtain ⟨h1, h2⟩ := ih hbs
        refine ⟨by simpa using h1, ?_⟩
        intro k hk
        cases k with
        | zero => simpa using hb
        | succ k =>
          have := h2 k (by omega)
          simpa using this

theorem firstZero_isSome_of_mem {d : List Nat} (h : 0 ∈ d) :
    ∃ i, firstZero d = some i := by
  induction d with
  | nil => simp at h
  | cons b bs ih =>
    unfold firstZero
    by_cases hb : b = 0
    · exact ⟨0, by simp [hb]⟩
    · have hm : 0 ∈ bs := by
        rcases List.mem_cons.mp h with h' | h'
        · exact absurd h'.symm hb
        · exact h'
      obtain ⟨j, hj⟩ := ih hm
      exact ⟨j + 1, by simp [hb, hj]⟩

theorem firstZero_eq_none_of_not_mem {d : List Nat} (h : 0 ∉ d) :
    firstZero d = none := by
  induction d with
  | nil => rfl
  | cons b bs ih =>
    unfold firstZero
    have hb : b ≠ 0 := fun hb => h (by simp [hb])
    have hbs : 0 ∉ bs := fun hm => h (by simp [hm])
    rw [if_neg hb, ih hbs]
    rfl

/-! ### Per-tag dispatch equations -/

theorem dispatch_tEXt (d : List Nat) :
    dispatch tEXtTag d =
      match firstZero d with
      | some i => some (.text (d.take i) (d.drop (i + 1)))
      | none => none := rfl

theorem dispatch_zTXt (d : List Nat) :
    dispatch zTXtTag d =
      match firstZero d with
      | some i =>
          if i + 1 < d.length then
            some (.ztxt (d.take i) (d.getD (i + 1) 0))
          else none
      | none => none := rfl

theorem dispatch_iTXt (d : List Nat) :
    dispatch iTXtTag d =
      match firstZero d with
      | some i => some (.itxt (d.take i))
      | none => none := rfl

theorem dispatch_pHYs (d : List Nat) :
    dispatch pHYsTag d =
      if 9 ≤ d.length then
        some (.phys
          (be32 (d.getD 0 0) (d.getD 1 0) (d.getD 2 0) (d.getD 3 0))
          (be32 (d.getD 4 0) (d.getD 5 0) (d.getD 6 0) (d.getD 7 0))
          (if d.getD 8 0 = 1 then "meter" else "unknown"))
      else none := rfl

theorem dispatch_tIME (d : List Nat) :
    dispatch tIMETag d =
      if 7 ≤ d.length then
        some (.time (be16 (d.getD 0 0) (d.getD 1 0))
          (d.getD 2 0) (d.getD 3 0) (d.getD 4 0) (d.getD 5 0) (d.getD 6 0))
      else none := rfl

theorem dispatch_gAMA (d : List Nat) :
    dispatch gAMATag d =
      if 4 ≤ d.length then
        some (.gama
          (be32 (d.getD 0 0) (d.getD 1 0) (d.getD 2 0) (d.getD 3 0)))
      else none := rfl

theorem dispatch_cHRM (d : List Nat) :
    dispatch cHRMTag d = if 32 ≤ d.length then some .chrm else none := rfl

theorem dispatch_sRGB (d : List Nat) :
    dispatch sRGBTag d =
      if d.length ≠ 0 then some (.srgb (srgbIntent (d.getD 0 0)))
      else none := rfl

theorem dispatch_iCCP (d : List Nat) :
    dispatch iCCPTag d =
      match firstZero d with
      | some i =>
          if i + 1 < d.length then
            some (.iccp (d.take i) (d.getD (i + 1) 0) (d.length - i - 2))
          else none
      | none => none := rfl

/-! ### Claim theorems -/

/-- C1 (counterexample): the claimed Pixel Noise Transform does not
happen — for the one-pixel Rgb buffer `[128, 128, 128]`, the buffer the
encoder receives is the decoded buffer unchanged, so no channel holds
`clamp(128 ± 15) ∈ {143, 113}` as the claim requires. -/
theorem pixel_noise_counterexample :
    ¬ pixelNoised ColorType.rgb [128, 128, 128]
        (mainEncode 1 1 ColorType.rgb 8 none [128, 128, 128]).imageData 0 := by
  decide

/-- C1 (amended): the decoded pixel buffer is passed from decode to
encode byte-for-byte unchanged — `main` contains no noise transform —
so in particular every alpha byte is unchanged. -/
theorem buffer_passed_unchanged :
    ∀ (w h : Nat) (ct : ColorType) (d : Nat) (t : Option (List Nat))
        (buf : List Nat),
      (mainEncode w h ct d t buf).imageData = buf ∧
      ∀ i : Nat,
        (mainEncode w h ct d t buf).imageData.getD i 0 = buf.getD i 0 :=
  fun _ _ _ _ _ _ => ⟨rfl, fun _ => rfl⟩

/-- C2 (counterexample): `write_png_image` attaches the transparency
payload for color type Rgba as well — for an Rgba header carrying
`trns = some [0]`, the encoder receives that payload, not `none`. -/
theorem trns_attached_for_rgba_counterexample :
    (write_png_image 1 1 ColorType.rgba 8 (some [0]) []).trns = some [0] ∧
    (write_png_image 1 1 ColorType.rgba 8 (some [0]) []).trns ≠ none := by
  exact ⟨rfl, by decide⟩

/-- C2 (amended): `write_png_image` attaches the transparency payload to
the encoder whenever the decoded header carries one, for every color
type — the `if let Some(trns_data) = trns` tests only presence, never
the color type. -/
theorem trns_attached_unconditionally :
    ∀ (w h : Nat) (ct : ColorType) (d : Nat) (t : Option (List Nat))
        (buf : List Nat),
      (write_png_image w h ct d t buf).trns = t := by
  intro w h ct d t buf
  cases t <;> rfl

/-- C3 (counterexample): the metadata-printing code can abort — the
text-printing loop `.unwrap()`s each `get_text()` outcome, so a single
failed text decode panics the process instead of degrading. -/
theorem metadata_printer_panic_counterexample :
    printTexts [Except.error TextDecodeError.decodeFailed] =
        Except.error TextDecodeError.decodeFailed ∧
    (printTexts [Except.error TextDecodeError.decodeFailed]).isOk = false :=
  ⟨rfl, rfl⟩

/-- C3 (amended): the chunk walker never aborts — every walk ends in a
clean stop (IEND or short read); the text printer succeeds whenever
every `get_text()` outcome is `Ok`, and the only abort it can produce is
the `.unwrap()` panic on a failed text decode present in its input. -/
theorem walker_and_printer_degrade :
    (∀ s : List Nat,
        (walk s).2 = StopReason.iend ∨ (walk s).2 = StopReason.shortRead) ∧
    (∀ texts : List (Except TextDecodeError String),
        (∀ t ∈ texts, t.isOk = true) → (printTexts texts).isOk = true) ∧
    (∀ (texts : List (Except TextDecodeError String)) (e : TextDecodeError),
        printTexts texts = Except.error e → Except.error e ∈ texts) := by
  refine ⟨?_, ?_, ?_⟩
  · intro s
    cases h : (walk s).2 with
    | iend => exact Or.inl rfl
    | shortRead => exact Or.inr rfl
  · intro texts
    induction texts with
    | nil => intro _; rfl
    | cons t ts ih =>
      intro hall
      have ht := hall t (by simp)
      cases t with
      | error e => simp [Except.isOk, Except.toBool] at ht
      | ok s =>
        have hts := ih (fun x hx => hall x (by simp [hx]))
        unfold printTexts
        cases hp : printTexts ts with
        | error e => rw [hp] at hts; simp [Except.isOk, Except.toBool] at hts
        | ok rs => simp [Except.isOk, Except.toBool]
  · intro texts e
    induction texts with
    | nil => intro h; simp [printTexts] at h
    | cons t ts ih =>
      intro h
      unfold printTexts at h
      cases t with
      | error e' =>
        cases e
        cases e'
        exact List.mem_cons_self _ _
      | ok s =>
        cases hp : printTexts ts with
        | error e2 =>
          rw [hp] at h
          cases e
          cases e2
          exact List.mem_cons_of_mem _ (ih hp)
        | ok rs =>
          rw [hp] at h
          simp at h

theorem walker_and_printer_degrade_witness :
    (printTexts [Except.ok "t"]).isOk = true :=
  walker_and_printer_degrade.2.1 [Except.ok "t"]
    (by intro t ht; simp only [List.mem_singleton] at ht; subst ht; rfl)

/-- C4: the output file name is the input file name with `-unpeeled`
inserted before the extension (before the final dot, a sole leading dot
not counting as one), and appended when there is no extension; in
particular `image.png ↦ image-unpeeled.png` and `data ↦ data-unpeeled`. -/
theorem create_output_path_inserts_unpeeled :
    (∀ n : List Char, create_output_path n = claimOutputName n) ∧
    create_output_path "image.png".data = "image-unpeeled.png".data ∧
    create_output_path "data".data = "data-unpeeled".data := by
  refine ⟨?_, by decide, by decide⟩
  intro n
  by_cases hsp : n = [] ∨ n = ['.'] ∨ n = ['.', '.']
  · rcases hsp with h | h | h <;> subst h <;> rfl
  · have h3 : n ≠ ['.', '.'] := fun hh => hsp (Or.inr (Or.inr hh))
    unfold create_output_path claimOutputName rustExtension rustFileStem
    rw [if_neg hsp, if_neg h3]
    cases h : lastDotIdx n with
    | none => simp
    | some i =>
      by_cases hi : 0 < i
      · have hdrop := lastDotIdx_drop h
        simp only [hi, if_true]
        rw [hdrop]
      · simp [hi]

/-- C9: each loop iteration that does not break consumes at least 12
bytes of the stream (4 length + 4 type + data + 4 crc), so the number of
completed iterations is bounded by the stream size. -/
theorem chunk_walk_iterations_bounded :
    (∀ (s : List Nat) (c : ChunkRaw) (rest : List Nat),
        readChunk s = some (c, rest) → rest.length + 12 ≤ s.length) ∧
    ∀ s : List Nat, 12 * chunkCount s ≤ s.length := by
  constructor
  · intro s c rest h
    have := readChunk_rest_length h
    omega
  · intro s
    exact chunkCount_le s.length s le_rfl

theorem chunk_walk_iterations_bounded_witness :
    ([] : List Nat).length + 12 ≤
      ([0, 0, 0, 0, 73, 69, 78, 68, 0, 0, 0, 0] : List Nat).length :=
  chunk_walk_iterations_bounded.1 [0, 0, 0, 0, 73, 69, 78, 68, 0, 0, 0, 0]
    ⟨0, IENDTag, [], [0, 0, 0, 0]⟩ [] (by decide)

/-- C5: the walk stops exactly on an IEND dispatch or a short read: one
of the four reads is short precisely when fewer than 8 bytes remain or
fewer than `12 + length` bytes remain; a short read stops the walk with
no detail record for the partial chunk; an IEND chunk stops it; any
other complete chunk continues the walk; in particular a header claiming
`length = 100` with only 10 bytes after it stops the walk cleanly. -/
theorem walk_stops_on_iend_or_short_read :
    (∀ s : List Nat,
        readChunk s = none ↔ s.length < 8 ∨ s.length < 12 + chunkLen s) ∧
    (∀ s : List Nat,
        readChunk s = none → walk s = ([], StopReason.shortRead)) ∧
    (∀ (s : List Nat) (c : ChunkRaw) (rest : List Nat),
        readChunk s = some (c, rest) → c.tag = IENDTag →
          walk s = ([], StopReason.iend)) ∧
    (∀ (s : List Nat) (c : ChunkRaw) (rest : List Nat),
        readChunk s = some (c, rest) → c.tag ≠ IENDTag →
          walk s =
            ((dispatch c.tag c.data).toList ++ (walk rest).1, (walk rest).2)) ∧
    walk ([0, 0, 0, 100, 73, 68, 65, 84] ++ List.replicate 10 0) =
      ([], StopReason.shortRead) :=
  ⟨readChunk_eq_none_iff, fun _ h => walk_shortRead h,
    fun _ _ _ h ht => walk_iend h ht,
    fun _ _ _ h ht => walk_cont h ht,
    walk_shortRead (by decide)⟩

theorem walk_stops_on_iend_or_short_read_witness :
    walk [0, 0, 0, 0, 73, 69, 78, 68, 0, 0, 0, 0] = ([], StopReason.iend) :=
  walk_stops_on_iend_or_short_read.2.2.1
    [0, 0, 0, 0, 73, 69, 78, 68, 0, 0, 0, 0]
    ⟨0, [73, 69, 78, 68], [], [0, 0, 0, 0]⟩ [] (by decide) (by decide)

/-- C6: a pHYs/tIME/gAMA/cHRM/sRGB chunk whose data is shorter than the
arm's documented minimum emits no record, and any non-IEND chunk whose
dispatch emits nothing leaves the walk to continue with the rest of the
stream unchanged. -/
theorem short_chunks_silently_skipped :
    (∀ d : List Nat,
        (d.length < 9 → dispatch pHYsTag d = none) ∧
        (d.length < 7 → dispatch tIMETag d = none) ∧
        (d.length < 4 → dispatch gAMATag d = none) ∧
        (d.length < 32 → dispatch cHRMTag d = none) ∧
        (d.length < 1 → dispatch sRGBTag d = none)) ∧
    (∀ (s : List Nat) (c : ChunkRaw) (rest : List Nat),
        readChunk s = some (c, rest) → c.tag ≠ IENDTag →
          dispatch c.tag c.data = none → walk s = walk rest) := by
  constructor
  · intro d
    refine ⟨fun h => ?_, fun h => ?_, fun h => ?_, fun h => ?_, fun h => ?_⟩
    · rw [dispatch_pHYs, if_neg (by omega)]
    · rw [dispatch_tIME, if_neg (by omega)]
    · rw [dispatch_gAMA, if_neg (by omega)]
    · rw [dispatch_cHRM, if_neg (by omega)]
    · rw [dispatch_sRGB, if_neg (by omega)]
  · intro s c rest h ht hd
    rw [walk_cont h ht, hd]
    simp

theorem short_chunks_silently_skipped_witness :
    dispatch pHYsTag [] = none :=
  (short_chunks_silently_skipped.1 []).1 (by decide)

/-- C7: a tEXt chunk whose data contains a `0x00` byte is reported as
the bytes before the first `0x00` (the keyword) and the bytes after it
(the text); in particular `"Author\x7b0\x7dJane"` yields keyword
`Author` and text `Jane`. -/
theorem tEXt_splits_at_first_zero :
    (∀ d : List Nat, 0 ∈ d →
        ∃ i, firstZero d = some i ∧ d[i]? = some 0 ∧
          (∀ j, j < i → d[j]? ≠ some 0) ∧
          dispatch tEXtTag d =
            some (.text (d.take i) (d.drop (i + 1)))) ∧
    dispatch tEXtTag [65, 117, 116, 104, 111, 114, 0, 74, 97, 110, 101] =
      some (.text [65, 117, 116, 104, 111, 114] [74, 97, 110, 101]) := by
  constructor
  · intro d hd
    obtain ⟨i, hi⟩ := firstZero_isSome_of_mem hd
    obtain ⟨h1, h2⟩ := firstZero_spec hi
    exact ⟨i, hi, h1, h2, by rw [dispatch_tEXt, hi]⟩
  · decide

theorem tEXt_splits_at_first_zero_witness :
    ∃ i, firstZero [0] = some i ∧ ([0] : List Nat)[i]? = some 0 ∧
      (∀ j, j < i → ([0] : List Nat)[j]? ≠ some 0) ∧
      dispatch tEXtTag [0] =
        some (ChunkRecord.text (List.take i [0]) (List.drop (i + 1) [0])) :=
  tEXt_splits_at_first_zero.1 [0] (by decide)

/-- C8: a pHYs chunk with at least 9 data bytes reports x as bytes 0-3
big-endian, y as bytes 4-7 big-endian, and the unit label `meter`
exactly when byte 8 equals 1 (`unknown` otherwise); in particular data
`[0,0,0,72, 0,0,0,72, 1]` reports x = 72, y = 72, unit `meter`. -/
theorem pHYs_reports_xy_and_unit :
    (∀ d : List Nat, 9 ≤ d.length →
        dispatch pHYsTag d =
          some (.phys
            (be32 (d.getD 0 0) (d.getD 1 0) (d.getD 2 0) (d.getD 3 0))
            (be32 (d.getD 4 0) (d.getD 5 0) (d.getD 6 0) (d.getD 7 0))
            (if d.getD 8 0 = 1 then "meter" else "unknown"))) ∧
    dispatch pHYsTag [0, 0, 0, 72, 0, 0, 0, 72, 1] =
      some (.phys 72 72 "meter") := by
  constructor
  · intro d h
    rw [dispatch_pHYs, if_pos h]
  · decide

theorem pHYs_reports_xy_and_unit_witness :
    dispatch pHYsTag (List.replicate 9 0) =
      some (ChunkRecord.phys 0 0 "unknown") := by
  have h := pHYs_reports_xy_and_unit.1 (List.replicate 9 0) (by decide)
  rw [h]
  decide

/-- C10: a tEXt/zTXt/iTXt/iCCP chunk whose data has no `0x00` byte
emits nothing, and a zTXt or iCCP chunk whose first `0x00` is the last
data byte (no compression-method byte follows) emits nothing. -/
theorem text_chunks_without_zero_skipped :
    (∀ d : List Nat, 0 ∉ d →
        dispatch tEXtTag d = none ∧ dispatch zTXtTag d = none ∧
        dispatch iTXtTag d = none ∧ dispatch iCCPTag d = none) ∧
    (∀ (d : List Nat) (i : Nat), firstZero d = some i → i + 1 = d.length →
        dispatch zTXtTag d = none ∧ dispatch iCCPTag d = none) := by
  constructor
  · intro d hd
    have hz := firstZero_eq_none_of_not_mem hd
    refine ⟨?_, ?_, ?_, ?_⟩
    · simp only [dispatch_tEXt, hz]
    · simp only [dispatch_zTXt, hz]
    · simp only [dispatch_iTXt, hz]
    · simp only [dispatch_iCCP, hz]
  · intro d i hi hlen
    constructor
    · simp only [dispatch_zTXt, hi]
      rw [if_neg (by omega)]
    · simp only [dispatch_iCCP, hi]
      rw [if_neg (by omega)]

theorem text_chunks_without_zero_skipped_witness :
    dispatch tEXtTag [1] = none ∧ dispatch zTXtTag [1] = none ∧
    dispatch iTXtTag [1] = none ∧ dispatch iCCPTag [1] = none :=
  text_chunks_without_zero_skipped.1 [1] (by decide)

end Unpeel
